import Mathlib

/-!
Verification of the traffic-agent natural-language pipeline: the phrase
interpreter, priority scale, weight validator, weight normalizer and result
formatter of `app/agent_logic.py`, `traffic-agent/src/utils/text_processing.py`
and `backend/app/agent_logic.py`.

Modelling conventions:
* Python floats are modelled as exact rationals (`ℚ`); Python's `round(x, 2)`
  is modelled as exact round-half-to-even of `100*x` (Python's documented tie
  rule), ignoring binary floating-point representation error.
* Python strings are Lean `String`s; the scanning work happens on `List Char`.
* A Python `dict` is an association list in insertion order (Python dicts are
  ordered); keys are unique in every dict the programs build.
* An uncaught Python exception is modelled as `Option.none` / `Except.error`.
* Batteries marks `Rat.add` etc. `@[irreducible]`, so the embedding computes
  with executable clones (`qadd`, `qmul`, ...) built on `mkRat`, each proved
  equal to the mathematical operation.
-/

/-! ## Executable rational arithmetic -/

/-- Executable addition on `ℚ` (equal to `+`, see `qadd_eq`). -/
def qadd (a b : ℚ) : ℚ := mkRat (a.num * b.den + b.num * a.den) (a.den * b.den)

/-- Executable subtraction on `ℚ` (equal to `-`, see `qsub_eq`). -/
def qsub (a b : ℚ) : ℚ := mkRat (a.num * b.den - b.num * a.den) (a.den * b.den)

/-- Executable multiplication on `ℚ` (equal to `*`, see `qmul_eq`). -/
def qmul (a b : ℚ) : ℚ := mkRat (a.num * b.num) (a.den * b.den)

/-- Executable division on `ℚ` (equal to `/`, see `qdiv_eq`); division by zero
gives zero, as in Mathlib. -/
def qdiv (a b : ℚ) : ℚ :=
  if 0 ≤ b.num then mkRat (a.num * b.den) (a.den * b.num.natAbs)
  else mkRat (-(a.num * b.den)) (a.den * b.num.natAbs)

/-- Executable floor on `ℚ` (equal to `⌊·⌋`, see `qfloor_eq`). -/
def qfloor (q : ℚ) : ℤ := q.num / (q.den : ℤ)

/-- Round half to even on `ℚ` (Python's `round` tie rule for an exactly
representable argument). -/
def rhe (q : ℚ) : ℤ :=
  let n : ℤ := qfloor q
  let r : ℚ := qsub q (n : ℚ)
  if r < mkRat 1 2 then n
  else if mkRat 1 2 < r then n + 1
  else if n % 2 = 0 then n else n + 1

/-- Python's `round(x, 2)`: round `100*x` half to even, divide by 100. -/
def round2 (q : ℚ) : ℚ := mkRat (rhe (qmul q (mkRat 100 1))) 100

/-! ## Character and string utilities -/

/-- Python's `\s` (ASCII whitespace as the inputs use). -/
def isWs (c : Char) : Bool :=
  c = ' ' || c = '\t' || c = '\n' || c = '\r' || c = '\x0b' || c = '\x0c'

/-- A character of the regex class `[a-z\s]` (the scanned text is lowercased). -/
def isPhraseChar (c : Char) : Bool := ('a' ≤ c && c ≤ 'z') || isWs c

/-- A character of the regex class `\d`. -/
def isDigitC (c : Char) : Bool := '0' ≤ c && c ≤ '9'

/-- ASCII lowercasing of one character, as Python's `str.lower` does on the
ASCII inputs this pipeline receives. -/
def lowerChar (c : Char) : Char :=
  if 'A' ≤ c && c ≤ 'Z' then Char.ofNat (c.toNat + 32) else c

/-- `str.lower()`. -/
def lowerCs (cs : List Char) : List Char := cs.map lowerChar

/-- Match a literal: when `lit` leads `s`, the rest of `s`. -/
def dropLit : List Char → List Char → Option (List Char)
  | [], s => some s
  | _, [] => none
  | p :: ps, c :: cs => if c = p then dropLit ps cs else none

/-- Does `p` lead `s`? -/
def startsWithCs (p s : List Char) : Bool := (dropLit p s).isSome

/-- Python's `in` on strings: `p` occurs contiguously in `s`. -/
def containsSub (p : List Char) : List Char → Bool
  | [] => startsWithCs p []
  | c :: cs => startsWithCs p (c :: cs) || containsSub p cs

/-- `str.strip()`: drop leading and trailing whitespace. -/
def stripCs (cs : List Char) : List Char :=
  ((cs.dropWhile isWs).reverse.dropWhile isWs).reverse

/-- `str.split()`: whitespace-separated words, no empties. -/
def splitWsCs : List Char → List (List Char)
  | [] => []
  | c :: cs =>
    if isWs c then splitWsCs cs
    else match splitWsCs cs with
      | [] => [[c]]
      | w :: ws =>
        match cs with
        | [] => [[c]]
        | d :: _ => if isWs d then [c] :: w :: ws else (c :: w) :: ws

/-- Count the leading whitespace characters. -/
def countLeadWs (cs : List Char) : Nat := (cs.takeWhile isWs).length

/-! ## Rendering numbers as Python renders floats -/

/-- The decimal digits of the fractional part `rem/d`, by long division; Python
prints a float's shortest faithful decimal, which for every number these
programs print is the exact finite expansion produced here (17 digits of fuel,
at least one digit, as `str(10.0) = "10.0")`. -/
def fracDigits (rem d : Nat) : Nat → List Char
  | 0 => []
  | fuel + 1 =>
    let r10 := rem * 10
    let dg := r10 / d
    let rem2 := r10 % d
    if rem2 = 0 then [Char.ofNat (48 + dg)]
    else Char.ofNat (48 + dg) :: fracDigits rem2 d fuel

/-- Python's `str`/`f"{...}"` of a float, for a float modelled as `q : ℚ`:
sign, integer part, point, fractional digits (`str(-0.5) = "-0.5"`,
`str(4.21) = "4.21"`, `str(10.0) = "10.0"`). -/
def qRepr (q : ℚ) : String :=
  let m := q.num.natAbs
  let ip := m / q.den
  let rem := m % q.den
  let sign := if q.num < 0 then "-" else ""
  let frac := if rem = 0 then "0" else String.mk (fracDigits rem q.den 17)
  sign ++ Nat.repr ip ++ "." ++ frac

/-! ## Priority scale (`ConfigModule.get_config`, `config.py`) -/

/-- `priority_intervals` of the shared configuration: the five qualitative
labels with their `(lo, hi)` bounds, in source order. -/
def priority_intervals : List (String × (ℚ × ℚ)) :=
  [("very high", (mkRat 9 10, mkRat 1 1)),
   ("high", (mkRat 7 10, mkRat 89 100)),
   ("medium", (mkRat 5 10, mkRat 69 100)),
   ("low", (mkRat 3 10, mkRat 49 100)),
   ("very low", (mkRat 1 10, mkRat 29 100))]

/-- `InterpretationModule.sample_priority` of `app/agent_logic.py`: the
midpoint of the interval of the (lowercased) label, rounded to 2 decimals;
an unknown label raises `ValueError`, modelled as `none`. -/
def sample_priority (priority : String) : Option ℚ :=
  match List.lookup (String.mk (lowerCs priority.data)) priority_intervals with
  | none => none
  | some (lo, hi) => some (round2 (qdiv (qadd lo hi) (mkRat 2 1)))

/-- `sample_priority` of `backend/app/agent_logic.py`: a uniform random draw
from the interval, `round(random.uniform(lo, hi), 2)`; the draw is modelled by
the unit sample `u` (`random.uniform(lo, hi) = lo + (hi-lo)*u`), and an
unknown label returns the default `0.1` (its `except` branch). -/
def backend_sample_priority (priority : String) (u : ℚ) : ℚ :=
  match List.lookup (String.mk (lowerCs priority.data)) priority_intervals with
  | none => mkRat 1 10
  | some (lo, hi) => round2 (qadd lo (qmul (qsub hi lo) u))

/-! ## Parameter resolver (`clean_param_phrase`, `find_parameter_improved`) -/

/-- The NLTK English stopword corpus (external data the code downloads at
startup via `nltk.download('stopwords')`; the standard 179-word list). -/
def nltk_stopwords : List String :=
  ["i", "me", "my", "myself", "we", "our", "ours", "ourselves", "you",
   "you're", "you've", "you'll", "you'd", "your", "yours", "yourself",
   "yourselves", "he", "him", "his", "himself", "she", "she's", "her",
   "hers", "herself", "it", "it's", "its", "itself", "they", "them",
   "their", "theirs", "themselves", "what", "which", "who", "whom",
   "this", "that", "that'll", "these", "those", "am", "is", "are", "was",
   "were", "be", "been", "being", "have", "has", "had", "having", "do",
   "does", "did", "doing", "a", "an", "the", "and", "but", "if", "or",
   "because", "as", "until", "while", "of", "at", "by", "for", "with",
   "about", "against", "between", "into", "through", "during", "before",
   "after", "above", "below", "to", "from", "up", "down", "in", "out",
   "on", "off", "over", "under", "again", "further", "then", "once",
   "here", "there", "when", "where", "why", "how", "all", "any", "both",
   "each", "few", "more", "most", "other", "some", "such", "no", "nor",
   "not", "only", "own", "same", "so", "than", "too", "very", "s", "t",
   "can", "will", "just", "don", "don't", "should", "should've", "now",
   "d", "ll", "m", "o", "re", "ve", "y", "ain", "aren", "aren't",
   "couldn", "couldn't", "didn", "didn't", "doesn", "doesn't", "hadn",
   "hadn't", "hasn", "hasn't", "haven", "haven't", "isn", "isn't", "ma",
   "mightn", "mightn't", "mustn", "mustn't", "needn", "needn't", "shan",
   "shan't", "shouldn", "shouldn't", "wasn", "wasn't", "weren", "weren't",
   "won", "won't", "wouldn", "wouldn't"]

/-- The extra stopwords `app/agent_logic.py` adds to the NLTK set. -/
def extra_stopwords : List String :=
  ["optimize", "adjust", "set", "want", "priority", "dynamic", "standard"]

/-- `important_keywords` of `clean_param_phrase`: words that survive the
stopword filter. -/
def important_keywords : List String :=
  ["public", "transport", "congestion", "emissions", "operational", "cost",
   "traffic", "delay", "frequency"]

/-- `InterpretationModule.clean_param_phrase` of `app/agent_logic.py`: split
on whitespace, keep a word when it is no stopword (or is an important
keyword) and is longer than 2 characters, re-join with single spaces. -/
def clean_param_phrase (phrase : String) : String :=
  let stop_words := nltk_stopwords ++ extra_stopwords
  let words := (splitWsCs phrase.data).map String.mk
  let cleaned := words.filter fun w =>
    (!stop_words.contains (String.mk (lowerCs w.data))
      || important_keywords.contains (String.mk (lowerCs w.data)))
    && w.length > 2
  String.mk (stripCs (String.intercalate " " cleaned).data)

/-- Length of a longest common subsequence (basis of rapidfuzz's Indel
similarity). -/
def lcs : List Char → List Char → Nat
  | [], _ => 0
  | _ :: _, [] => 0
  | a :: as, b :: bs =>
    if a = b then lcs as bs + 1
    else max (lcs (a :: as) bs) (lcs as (b :: bs))
termination_by x y => x.length + y.length
decreasing_by all_goals (simp only [List.length_cons]; omega)

/-- rapidfuzz's `fuzz.ratio` on a 0–100 scale: the normalized Indel
similarity `200*lcs/(len1+len2)` (100 for two empty strings). -/
def fuzzRatio (a b : List Char) : ℚ :=
  if a.length + b.length = 0 then mkRat 100 1
  else qdiv (mkRat (200 * (lcs a b) : ℕ) 1) (mkRat (a.length + b.length : ℕ) 1)

/-- rapidfuzz's `process.extractOne(query, choices, scorer=fuzz.ratio)`, run
over the `param_map` items so the matched choice keeps its mapped value: the
first pair whose key scores highest (later pairs replace only on a strictly
greater score), `none` for an empty map. -/
def bestMatch (query : List Char) (pm : List (String × String)) :
    Option ((String × String) × ℚ) :=
  pm.foldl (fun acc p =>
    let sc := fuzzRatio query p.1.data
    match acc with
    | none => some (p, sc)
    | some (_, sc') => if sc > sc' then some (p, sc) else acc) none

/-- `find_parameter_improved` of `app/agent_logic.py`: exact lookup of the
stripped lowercased phrase, else the fuzzy best match when its score reaches
the cutoff. -/
def find_parameter_improved (param_phrase : String)
    (param_map : List (String × String)) (cutoff : ℚ) : Option String :=
  let normalized_input := String.mk (stripCs (lowerCs param_phrase.data))
  match List.lookup normalized_input param_map with
  | some v => some v
  | none =>
    match bestMatch normalized_input.data param_map with
    | none => none
    | some (p, score) => if score ≥ cutoff then some p.2 else none

/-- `param_map` of `interpret_user_input` (English call sites). -/
def param_map : List (String × String) :=
  [("public transport", "weight_PublicTransport"),
   ("congestion", "weight_Congestion"),
   ("emissions", "weight_Emissions"),
   ("operational cost", "weight_OperationalCost")]

/-- The four canonical weight keys, in the insertion order of the defaults. -/
def canonical_keys : List String :=
  ["weight_PublicTransport", "weight_Congestion", "weight_Emissions",
   "weight_OperationalCost"]

/-- `API_CONFIG["shared_config"]["defaults"]`: every canonical key at 0.1. -/
def default_weights : List (String × ℚ) := canonical_keys.map (·, mkRat 1 10)

/-- Python dict assignment `d[k] = v` on an association list: replace the
value at the first occurrence of `k`, append when `k` is absent. -/
def dictSet : List (String × ℚ) → String → ℚ → List (String × ℚ)
  | [], k, v => [(k, v)]
  | p :: ps, k, v => if p.1 = k then (k, v) :: ps else p :: dictSet ps k v

/-! ## Phrase interpreter (`InterpretationModule.interpret_user_input`)

The three extraction regexes of `app/agent_logic.py` are embedded as direct
backtracking matchers over the lowercased character list.  Greedy `\s+` is
matched by maximal munch wherever the following regex atom cannot begin with
whitespace (backtracking could only leave the scanner on a whitespace
character there, so maximal munch is complete); before the lazy phrase group
of pattern A, whose class `[a-z\s]` does admit whitespace, the whitespace run
is backtracked longest-first exactly as the regex engine does.  The label and
conjunction alternations (`very high|high|medium|low|very low`, `to|for`,
`to|=|:`) are tried in source order; at any one position at most one
alternative can match (their first characters or fixed prefixes differ), so
committing to the first match is complete backtracking. -/

/-- The closed set of qualitative priority labels. -/
inductive PLabel | veryHigh | high | medium | low | veryLow
deriving DecidableEq, Repr

/-- The text of a label, as the regex alternation captures it. -/
def labelStr : PLabel → String
  | .veryHigh => "very high"
  | .high => "high"
  | .medium => "medium"
  | .low => "low"
  | .veryLow => "very low"

/-- The label alternation `(very high|high|medium|low|very low)` in its
source order. -/
def labelAlternatives : List (PLabel × List Char) :=
  [(.veryHigh, "very high".data), (.high, "high".data),
   (.medium, "medium".data), (.low, "low".data), (.veryLow, "very low".data)]

/-- First literal of an ordered alternation that leads `s`. -/
def firstLit : List (PLabel × List Char) → List Char → Option (PLabel × List Char)
  | [], _ => none
  | (l, lit) :: rest, s =>
    match dropLit lit s with
    | some r => some (l, r)
    | none => firstLit rest s

/-- `\s+` by maximal munch: at least one whitespace character, then all
following whitespace. -/
def ws1Max : List Char → Option (List Char)
  | c :: cs => if isWs c then some (cs.dropWhile isWs) else none
  | [] => none

/-- The lookahead `(?=(?:\s+and\s+|,|\.|$))` shared by patterns A and B. -/
def lookAB (t : List Char) : Bool :=
  (match ws1Max t with
   | some t1 =>
     match dropLit "and".data t1 with
     | some t2 => (ws1Max t2).isSome
     | none => false
   | none => false)
  || (match t with
      | ',' :: _ => true
      | '.' :: _ => true
      | [] => true
      | _ => false)

/-- The lazy group `([a-z\s]+?)` of pattern A, shortest first, stopping at
the first length where the lookahead holds: the captured group and the rest. -/
def lazyGroupA : List Char → Option (List Char × List Char)
  | [] => none
  | c :: cs =>
    if isPhraseChar c then
      if lookAB cs then some ([c], cs)
      else
        match lazyGroupA cs with
        | some (g, r) => some (c :: g, r)
        | none => none
    else none

/-- Backtrack the greedy `\s+` before pattern A's lazy group: `j` whitespace
characters are consumed, longest first, until the group matches. -/
def tryWsA : Nat → List Char → Option (List Char × List Char)
  | 0, _ => none
  | j + 1, s =>
    match lazyGroupA (s.drop (j + 1)) with
    | some res => some res
    | none => tryWsA j s

/-- `\s+([a-z\s]+?)(?=...)`: the tail of pattern A after `to`/`for`. -/
def afterConjA (s : List Char) : Option (List Char × List Char) :=
  let m := countLeadWs s
  if m = 0 then none else tryWsA m s

/-- One attempt of pattern A
`(very high|...)\s+priority\s+(?:to|for)\s+([a-z\s]+?)(?=(?:\s+and\s+|,|\.|$))`
at the head of `s`: the label, the captured phrase and the rest of the text
after the match. -/
def matchA (s : List Char) : Option (PLabel × List Char × List Char) :=
  match firstLit labelAlternatives s with
  | none => none
  | some (lab, s1) =>
    match ws1Max s1 with
    | none => none
    | some s2 =>
      match dropLit "priority".data s2 with
      | none => none
      | some s3 =>
        match ws1Max s3 with
        | none => none
        | some s4 =>
          match (dropLit "to".data s4).orElse (fun _ => dropLit "for".data s4) with
          | none => none
          | some s5 =>
            match afterConjA s5 with
            | some (g, r) => some (lab, g, r)
            | none => none

/-- `re.finditer` for pattern A: scan left to right, continue after each
match's end; the fuel is an upper bound on the scan steps (each consumes at
least one character). -/
def findAllA : Nat → List Char → List (PLabel × List Char)
  | 0, _ => []
  | _, [] => []
  | fuel + 1, c :: cs =>
    match matchA (c :: cs) with
    | some (lab, g, rest) => (lab, g) :: findAllA fuel rest
    | none => findAllA fuel cs

/-- The part of pattern B after its lazy group:
`\s+(very high|...)\s+priority(?=...)`. -/
def contB (t : List Char) : Option (PLabel × List Char) :=
  match ws1Max t with
  | none => none
  | some t1 =>
    match firstLit labelAlternatives t1 with
    | none => none
    | some (lab, t2) =>
      match ws1Max t2 with
      | none => none
      | some t3 =>
        match dropLit "priority".data t3 with
        | none => none
        | some t4 => if lookAB t4 then some (lab, t4) else none

/-- One attempt of pattern B
`([a-z\s]+?)\s+(very high|...)\s+priority(?=(?:\s+and\s+|,|\.|$))` at the
head of the text: lazy group shortest first. -/
def lazyScanB : List Char → Option (List Char × PLabel × List Char)
  | [] => none
  | c :: cs =>
    if isPhraseChar c then
      match contB cs with
      | some (lab, rest) => some ([c], lab, rest)
      | none =>
        match lazyScanB cs with
        | some (g, lab, rest) => some (c :: g, lab, rest)
        | none => none
    else none

/-- `re.finditer` for pattern B. -/
def findAllB : Nat → List Char → List (List Char × PLabel)
  | 0, _ => []
  | _, [] => []
  | fuel + 1, c :: cs =>
    match lazyScanB (c :: cs) with
    | some (g, lab, rest) => (g, lab) :: findAllB fuel rest
    | none => findAllB fuel cs

/-- `\d+` by maximal munch. -/
def digits1 : List Char → Option (List Char × List Char)
  | c :: cs =>
    if isDigitC c then some (c :: cs.takeWhile isDigitC, cs.dropWhile isDigitC)
    else none
  | [] => none

/-- The part of pattern C after its lazy group:
`\s+(?:to|=|:)\s+(\d+(?:\.\d+)?)`; the number is returned as its integer and
fractional digit strings. -/
def contC (t : List Char) : Option ((List Char × List Char) × List Char) :=
  match ws1Max t with
  | none => none
  | some t1 =>
    match ((dropLit "to".data t1).orElse (fun _ => dropLit "=".data t1)).orElse
        (fun _ => dropLit ":".data t1) with
    | none => none
    | some t2 =>
      match ws1Max t2 with
      | none => none
      | some t3 =>
        match digits1 t3 with
        | none => none
        | some (ip, t4) =>
          match t4 with
          | '.' :: t5 =>
            match digits1 t5 with
            | some (fp, t6) => some ((ip, fp), t6)
            | none => some ((ip, []), t4)
          | _ => some ((ip, []), t4)

/-- One attempt of pattern C `([a-z\s]+?)\s+(?:to|=|:)\s+(\d+(?:\.\d+)?)`
at the head of the text. -/
def lazyScanC : List Char → Option (List Char × (List Char × List Char) × List Char)
  | [] => none
  | c :: cs =>
    if isPhraseChar c then
      match contC cs with
      | some (num, rest) => some ([c], num, rest)
      | none =>
        match lazyScanC cs with
        | some (g, num, rest) => some (c :: g, num, rest)
        | none => none
    else none

/-- `re.finditer` for pattern C. -/
def findAllC : Nat → List Char → List (List Char × List Char × List Char)
  | 0, _ => []
  | _, [] => []
  | fuel + 1, c :: cs =>
    match lazyScanC (c :: cs) with
    | some (g, (ip, fp), rest) => (g, ip, fp) :: findAllC fuel rest
    | none => findAllC fuel cs

/-- Digit characters to a natural number. -/
def digitsToNat (ds : List Char) : Nat := ds.foldl (fun n c => 10 * n + (c.toNat - 48)) 0

/-- Python's `float` of the decimal literal the numeric pattern captured,
as an exact rational. -/
def ratOfDigits (ip fp : List Char) : ℚ :=
  qadd (mkRat (digitsToNat ip : ℕ) 1)
    (qdiv (mkRat (digitsToNat fp : ℕ) 1) (mkRat ((10 ^ fp.length : ℕ)) 1))

/-- `dynamic_keywords` of `interpret_user_input`. -/
def dynamic_keywords : List String := ["dynamic", "real-time", "adaptive", "real time"]

/-- The optimizer-mode selection of `app/agent_logic.py`'s
`interpret_user_input`: `dynamic_optimizer` when any dynamic keyword occurs
in the lowercased input, or (its typo fallback) when `"dynam"` occurs;
`standard_optimizer` otherwise. -/
def optimizerTypeOf (lower : List Char) : String :=
  if dynamic_keywords.any (fun k => containsSub k.data lower) then "dynamic_optimizer"
  else if containsSub "dynam".data lower then "dynamic_optimizer"
  else "standard_optimizer"

/-- The sampled weight of a captured label: `sample_priority` applied to the
captured text.  The lookup always succeeds for the five captured labels (see
`sample_priority_labels`), so the default is never taken. -/
def sampleP (l : PLabel) : ℚ := (sample_priority (labelStr l)).getD (mkRat 0 1)

/-- One qualitative match applied to the weights dict: clean the captured
phrase (stripped, as `match.group(...).strip()`), resolve it (cutoff 60),
and on a hit write the sampled priority. -/
def applyQualMatch (w : List (String × ℚ)) (lab : PLabel) (phrase : List Char) :
    List (String × ℚ) :=
  match find_parameter_improved (clean_param_phrase (String.mk (stripCs phrase)))
      param_map (mkRat 60 1) with
  | some api => dictSet w api (sampleP lab)
  | none => w

/-- One numeric match applied to the weights dict: clean the captured phrase,
resolve it, and on a hit write the literal parsed float. -/
def applyNumericMatch (w : List (String × ℚ)) (phrase ip fp : List Char) :
    List (String × ℚ) :=
  match find_parameter_improved (clean_param_phrase (String.mk (stripCs phrase)))
      param_map (mkRat 60 1) with
  | some api => dictSet w api (ratOfDigits ip fp)
  | none => w

/-- The weight side of `interpret_user_input`: weights seeded with the
defaults, then the matches of patterns A, B and C applied in source order
over the lowercased input (later writes win). -/
def interpret_weights (lower : List Char) : List (String × ℚ) :=
  (findAllC (lower.length + 1) lower).foldl
    (fun w m => applyNumericMatch w m.1 m.2.1 m.2.2)
    ((findAllB (lower.length + 1) lower).foldl
      (fun w m => applyQualMatch w m.2 m.1)
      ((findAllA (lower.length + 1) lower).foldl
        (fun w m => applyQualMatch w m.1 m.2) default_weights))

/-- `InterpretationModule.interpret_user_input` of `app/agent_logic.py`:
the accumulated weight mapping, and the optimizer mode decided by keyword
search on the same lowercased text. -/
def interpret_user_input (user_input : String) : List (String × ℚ) × String :=
  (interpret_weights (lowerCs user_input.data), optimizerTypeOf (lowerCs user_input.data))

/-! ## Weight validator and normalizer -/

/-- `validate_weight` of `text_processing.py`: clamp into [0,1]; the warning
string mentions the parameter name and the original value (the `app` variant
differs only in the Spanish wording of the same data). -/
def validate_weight (weight : ℚ) (param_name : String) : ℚ × String :=
  if weight < mkRat 0 1 then
    (mkRat 0 1, "Warning: Weight for " ++ param_name ++ " (" ++ qRepr weight
      ++ ") was negative. Adjusted to 0.")
  else if weight > mkRat 1 1 then
    (mkRat 1 1, "Warning: Weight for " ++ param_name ++ " (" ++ qRepr weight
      ++ ") exceeded 1. Adjusted to 1.")
  else (weight, "")

/-- `validate_weights`: validate every entry in iteration (= insertion) order,
collecting the validated dict and the non-empty warnings. -/
def validate_weights (weights : List (String × ℚ)) :
    List (String × ℚ) × List String :=
  weights.foldl
    (fun acc p =>
      let r := validate_weight p.2 p.1
      (dictSet acc.1 p.1 r.1, if r.2 ≠ "" then acc.2 ++ [r.2] else acc.2))
    ([], [])

/-- `sum(weights.values())`. -/
def sumValues (weights : List (String × ℚ)) : ℚ :=
  (weights.map Prod.snd).foldl qadd (mkRat 0 1)

/-- `normalize_weights` of `text_processing.py`: divide each value by the
total and round to 2 decimals; when the total is not positive the input dict
is returned unchanged (its comment: cannot normalize). -/
def normalize_weights (weights : List (String × ℚ)) : List (String × ℚ) :=
  let total := sumValues weights
  if total ≤ mkRat 0 1 then weights
  else weights.map fun p => (p.1, round2 (qdiv p.2 total))

/-- The inline normalization step of `ApiModule.traffic_optimization_api`
(`app/agent_logic.py` lines 347–352), applied to the validated weights (which
carry exactly the canonical keys, so `api_w` equals them): a non-positive
total is answered with the error result instead of a weight mapping. -/
def api_normalize_step (weights : List (String × ℚ)) :
    Except String (List (String × ℚ)) :=
  let total := sumValues weights
  if total ≤ mkRat 0 1 then Except.error "Total weights must be positive"
  else Except.ok (weights.map fun p => (p.1, round2 (qdiv p.2 total)))

/-! ## Result formatter -/

/-- A JSON-like optimizer response value. -/
inductive J where
  | num : ℚ → J
  | str : String → J
  | bool : Bool → J
  | null : J
  | arr : List J → J
  | obj : List (String × J) → J

/-- Key present in a response dict. -/
def hasKeyJ (l : List (String × J)) (k : String) : Bool :=
  (List.lookup k l).isSome

/-- Python `dict.pop(k)`'s effect on the dict: the first binding of `k`
removed (keys are unique in a Python dict). -/
def eraseKey : List (String × J) → String → List (String × J)
  | [], _ => []
  | p :: ps, k => if p.1 = k then ps else p :: eraseKey ps k

/-- Python truthiness of a response value. -/
def jTruthy : J → Bool
  | .num q => q.num != 0
  | .str s => s ≠ ""
  | .bool b => b
  | .null => false
  | .arr l => !l.isEmpty
  | .obj l => !l.isEmpty

/-- Python's `f"{value}"` of a response value.  Scalars are rendered exactly
(floats per `qRepr`, `True`/`False`, `None`); a nested list or dict never
reaches a rendered position in an optimizer response, and its Python repr is
not modelled. -/
def jRender : J → String
  | .num q => qRepr q
  | .str s => s
  | .bool b => if b then "True" else "False"
  | .null => "None"
  | .arr _ => "[...]"
  | .obj _ => "..."

/-- Non-overlapping left-to-right replacement on characters (`str.replace`);
the fuel is an upper bound on the scan steps (the patterns used are
non-empty). -/
def replaceCs : Nat → List Char → List Char → List Char → List Char
  | 0, s, _, _ => s
  | _, [], _, _ => []
  | fuel + 1, c :: cs, pat, rep =>
    match dropLit pat (c :: cs) with
    | some rest => rep ++ replaceCs fuel rest pat rep
    | none => c :: replaceCs fuel cs pat rep

/-- `str.replace(pat, rep)`. -/
def strReplace (s pat rep : String) : String :=
  String.mk (replaceCs (s.length + 1) s.data pat.data rep.data)

/-- The friendly-name rewrite the Flask formatter applies to payload keys. -/
def friendly_name (param : String) : String :=
  strReplace (strReplace (strReplace param "weight_" "") "PublicTransport"
    "Public Transport") "OperationalCost" "Operational Cost"

/-- The entry of `API_CONFIG` the app formatter reads for an optimizer type
(`output_params_key`, `difference_key`, `name`); any other key raises
(`shared_config` has none of these fields), modelled as `none`. -/
def api_config : String → Option (String × String × String)
  | "standard_optimizer" => some ("KPIs", "difference", "Traffic Optimizer")
  | "dynamic_optimizer" => some ("KPIs", "difference", "Dynamic Traffic Optimizer")
  | _ => none

/-- One difference line of the app formatter: sign picks the verb, the zero
case omits the percentage, `pct = abs(round(value*100, 2))`. -/
def stdLine (metric : String) (v : ℚ) : String :=
  let pct := |round2 (qmul v (mkRat 100 1))|
  if mkRat 0 1 < v then "- The KPI '" ++ metric ++ "' improves by " ++ qRepr pct ++ "%."
  else if v < mkRat 0 1 then "- The KPI '" ++ metric ++ "' worsens by " ++ qRepr pct ++ "%."
  else "- The KPI '" ++ metric ++ "' shows no change."

/-- The app formatter's loop over the difference mapping; a non-numeric
difference value raises in Python (`value * 100`), modelled as `none`. -/
def stdLinesJ : List (String × J) → Option (List String)
  | [] => some []
  | (m, J.num v) :: rest => (stdLinesJ rest).map (stdLine m v :: ·)
  | _ => none

/-- `FormattingModule.extract_and_format_results` of `app/agent_logic.py`.
The function pops `debug_payload` and `validation_warnings` out of the caller
dict, so the model returns the formatted string together with the response
dict as the call leaves it.  A non-list `validation_warnings` value would
raise on iteration and is modelled as `none` (the API only ever injects a
list of warning strings). -/
def extract_and_format_results (api_response : List (String × J))
    (optimizer_type : String) : Option (String × List (String × J)) :=
  match api_config optimizer_type with
  | none => none
  | some (output_params_key, difference_key, name) =>
    let r1 := if hasKeyJ api_response "debug_payload" then
        eraseKey api_response "debug_payload"
      else api_response
    let popW : Option (List String × List (String × J)) :=
      if hasKeyJ r1 "validation_warnings" then
        match List.lookup "validation_warnings" r1 with
        | some (J.arr ws) =>
          some ((if ws.isEmpty then [] else
            "Advertencias de validación:" :: ws.map (fun w => "- " ++ jRender w) ++ [""]),
            eraseKey r1 "validation_warnings")
        | _ => none
      else some ([], r1)
    match popW with
    | none => none
    | some (wlines, r2) =>
      match (List.lookup output_params_key r2).getD (J.obj []) with
      | J.obj ko =>
        let diffs := (List.lookup difference_key ko).getD (J.obj [])
        if !(jTruthy diffs) then
          some (String.intercalate "\n"
            (wlines ++ ["No " ++ name ++ " differences found in the response."]), r2)
        else
          match diffs with
          | J.obj dl =>
            match stdLinesJ dl with
            | some ls =>
              some (String.intercalate "\n" (wlines ++ [name ++ " Results:"] ++ ls), r2)
            | none => none
          | _ => none
      | _ => none

/-- The `expected_kpis` of the Flask dynamic formatter. -/
def expected_kpis : List String :=
  ["Income", "Congestion inside", "Congestion (Delay)", "Emissions"]

/-- The payload block both Flask formatter branches prepend when
`debug_payload` is present. -/
def payloadLines (payload : List (String × J)) : List String :=
  "\nWeights used in optimization:" ::
    payload.map (fun p => "- " ++ friendly_name p.1 ++ ": " ++ jRender p.2) ++ [""]

/-- One difference line of the Flask standard branch (no leading dash). -/
def tpStdLine (metric : String) (v : ℚ) : String :=
  let percentage := |round2 (qmul v (mkRat 100 1))|
  if mkRat 0 1 < v then "The KPI '" ++ metric ++ "' improves by " ++ qRepr percentage ++ "%."
  else if v < mkRat 0 1 then "The KPI '" ++ metric ++ "' worsens by " ++ qRepr percentage ++ "%."
  else "The KPI '" ++ metric ++ "' shows no change."

/-- The Flask standard branch's loop over the difference mapping. -/
def tpStdLines : List (String × J) → Option (List String)
  | [] => some []
  | (m, J.num v) :: rest => (tpStdLines rest).map (tpStdLine m v :: ·)
  | _ => none

/-- `extract_and_format_results` of `text_processing.py`.  The function never
mutates its input; its enclosing `try/except` turns any exception into an
error string, and those exceptional runs (non-dict values where the code
needs a dict, non-numeric difference values) are modelled as `none`. -/
def tp_extract_and_format_results (api_response : List (String × J))
    (optimizer_type : String) : Option String :=
  if optimizer_type = "standard_optimizer" then
    match (List.lookup "KPIs" api_response).getD (J.obj []) with
    | J.obj ko =>
      let diffs := (List.lookup "difference" ko).getD (J.obj [])
      if !(jTruthy diffs) then
        some "No differences found in standard optimizer response."
      else
        match diffs with
        | J.obj dl =>
          let lines1 : Option (List String) :=
            if hasKeyJ api_response "debug_payload" then
              match List.lookup "debug_payload" api_response with
              | some (J.obj payload) =>
                some ("🚦 Standard Traffic Optimizer Results:" :: payloadLines payload)
              | _ => none
            else some ["🚦 Standard Traffic Optimizer Results:"]
          match lines1 with
          | none => none
          | some l1 =>
            match tpStdLines dl with
            | some ls => some (String.intercalate "\n" (l1 ++ ls))
            | none => none
        | _ => none
    | _ => none
  else if optimizer_type = "dynamic_optimizer" then
    let results_data : Option (List (String × J)) :=
      match List.lookup "data" api_response with
      | some (J.obj l) => some l
      | some _ => none
      | none => some api_response
    match results_data with
    | none => none
    | some rd =>
      let lines1 : Option (List String) :=
        if hasKeyJ api_response "debug_payload" then
          match List.lookup "debug_payload" api_response with
          | some (J.obj payload) =>
            some ("🚦 Dynamic Traffic Optimizer Results:" :: payloadLines payload)
          | _ => none
        else some ["🚦 Dynamic Traffic Optimizer Results:"]
      match lines1 with
      | none => none
      | some l1 =>
        let found := expected_kpis.filterMap fun k =>
          (List.lookup k rd).map fun v =>
            "The value for '" ++ k ++ "' is " ++ jRender v ++ "."
        if found.isEmpty then
          some "No dynamic optimizer results found or results are not in the expected format."
        else some (String.intercalate "\n" (l1 ++ found))
  else some ("Unknown optimizer type: " ++ optimizer_type)

/-! ## Helper definitions for the statements -/

/-- The clamp into [0,1] that `validate_weight` performs on the value. -/
def clamp (v : ℚ) : ℚ := if v < 0 then 0 else if 1 < v then 1 else v

/-- A standard-optimizer response carrying exactly a difference mapping with
the given (numeric) metric values. -/
def mkStdResp (dl : List (String × ℚ)) : List (String × J) :=
  [("KPIs", J.obj [("difference", J.obj (dl.map fun p => (p.1, J.num p.2)))])]

/-- A flat response object with the given numeric values. -/
def mkNumObj (d : List (String × ℚ)) : List (String × J) :=
  d.map fun p => (p.1, J.num p.2)

/-- The sentences the dynamic formatter emits for the expected KPI names
present in the value mapping `d`, in the fixed expected order. -/
def dynFound (d : List (String × ℚ)) : List String :=
  expected_kpis.filterMap fun k =>
    (List.lookup k d).map fun v => "The value for '" ++ k ++ "' is " ++ qRepr v ++ "."

/-- The dynamic formatter's output for a response whose value mapping is `d`
(no debug payload): the found-KPI sentences under the header, or the
no-results sentence when none of the expected names is present. -/
def dynOut (d : List (String × ℚ)) : String :=
  if (dynFound d).isEmpty then
    "No dynamic optimizer results found or results are not in the expected format."
  else String.intercalate "\n" ("🚦 Dynamic Traffic Optimizer Results:" :: dynFound d)

/-! ## Bridging theorems for the executable arithmetic -/

theorem qadd_eq (a b : ℚ) : qadd a b = a + b := by
  rw [qadd, Rat.mkRat_eq_div]
  conv_rhs => rw [← Rat.num_div_den a, ← Rat.num_div_den b]
  have ha : ((a.den : ℚ)) ≠ 0 := Nat.cast_ne_zero.mpr a.den_nz
  have hb : ((b.den : ℚ)) ≠ 0 := Nat.cast_ne_zero.mpr b.den_nz
  field_simp
  try push_cast
  try ring

theorem qsub_eq (a b : ℚ) : qsub a b = a - b := by
  rw [qsub, Rat.mkRat_eq_div]
  conv_rhs => rw [← Rat.num_div_den a, ← Rat.num_div_den b]
  have ha : ((a.den : ℚ)) ≠ 0 := Nat.cast_ne_zero.mpr a.den_nz
  have hb : ((b.den : ℚ)) ≠ 0 := Nat.cast_ne_zero.mpr b.den_nz
  field_simp
  try push_cast
  try ring

theorem qmul_eq (a b : ℚ) : qmul a b = a * b := by
  rw [qmul, Rat.mkRat_eq_div]
  conv_rhs => rw [← Rat.num_div_den a, ← Rat.num_div_den b]
  have ha : ((a.den : ℚ)) ≠ 0 := Nat.cast_ne_zero.mpr a.den_nz
  have hb : ((b.den : ℚ)) ≠ 0 := Nat.cast_ne_zero.mpr b.den_nz
  field_simp
  try push_cast
  try ring

theorem qdiv_eq (a b : ℚ) : qdiv a b = a / b := by
  rcases eq_or_ne b 0 with rfl | hb0
  · simp [qdiv, Rat.mkRat_eq_div]
  · have hbnum : b.num ≠ 0 := Rat.num_ne_zero.mpr hb0
    have ha : ((a.den : ℚ)) ≠ 0 := Nat.cast_ne_zero.mpr a.den_nz
    have hb : ((b.den : ℚ)) ≠ 0 := Nat.cast_ne_zero.mpr b.den_nz
    have hbq : ((b.num : ℚ)) ≠ 0 := Int.cast_ne_zero.mpr hbnum
    rw [qdiv]
    rcases le_or_lt 0 b.num with hpos | hneg
    · rw [if_pos hpos, Rat.mkRat_eq_div]
      push_cast [Int.cast_natAbs]
      rw [abs_of_nonneg (show (0:ℚ) ≤ (b.num : ℚ) by exact_mod_cast hpos)]
      conv_rhs => rw [← Rat.num_div_den a, ← Rat.num_div_den b]
      field_simp
      try push_cast
      try ring
    · rw [if_neg (not_le.mpr hneg), Rat.mkRat_eq_div]
      push_cast [Int.cast_natAbs]
      rw [abs_of_neg (show (b.num : ℚ) < 0 by exact_mod_cast hneg)]
      conv_rhs => rw [← Rat.num_div_den a, ← Rat.num_div_den b]
      field_simp
      try push_cast
      try ring

theorem qfloor_eq (q : ℚ) : qfloor q = ⌊q⌋ := (Rat.floor_def).symm

/-- `rhe` differs from its argument by at most 1/2. -/
theorem rhe_err (q : ℚ) : |(rhe q : ℚ) - q| ≤ 1/2 := by
  rw [rhe]
  simp only [qfloor_eq, qsub_eq]
  have hmk : (mkRat 1 2 : ℚ) = 1/2 := by rw [Rat.mkRat_eq_div]; norm_num
  rw [hmk]
  set n : ℤ := ⌊q⌋ with hn
  have h0 : (0 : ℚ) ≤ q - n := by
    have := Int.floor_le q
    linarith
  have h1 : q - n < 1 := by
    have := Int.lt_floor_add_one q
    linarith
  by_cases hlt : q - (n : ℚ) < 1/2
  · rw [if_pos hlt, abs_le]
    constructor <;> linarith
  · rw [if_neg hlt]
    by_cases hgt : (1:ℚ)/2 < q - n
    · rw [if_pos hgt]
      rw [abs_le]
      push_cast
      constructor <;> linarith
    · have heq : q - (n : ℚ) = 1/2 := le_antisymm (not_lt.mp hgt) (not_lt.mp hlt)
      rw [if_neg hgt]
      by_cases hev : n % 2 = 0
      · rw [if_pos hev, abs_le]
        constructor <;> linarith
      · rw [if_neg hev, abs_le]
        push_cast
        constructor <;> linarith

/-- `round2` differs from its argument by at most 1/200. -/
theorem round2_err (q : ℚ) : |round2 q - q| ≤ 1/200 := by
  have hmk100 : (mkRat 100 1 : ℚ) = 100 := by rw [Rat.mkRat_eq_div]; norm_num
  rw [round2, Rat.mkRat_eq_div, qmul_eq, hmk100]
  have hcast : ((100 : ℕ) : ℚ) = 100 := by norm_num
  rw [hcast]
  have h := rhe_err (q * 100)
  have h100 : (0:ℚ) < 100 := by norm_num
  have key : |(rhe (q * 100) : ℚ) / 100 - q| = |(rhe (q * 100) : ℚ) - q * 100| / 100 := by
    rw [← abs_of_pos h100, ← abs_div]
    congr 1
    field_simp
    ring
  rw [key, div_le_iff₀ h100]
  linarith

/-! ## Small bridging facts and helper lemmas -/

theorem q0_def : (mkRat 0 1 : ℚ) = 0 := by decide

theorem q1_def : (mkRat 1 1 : ℚ) = 1 := by decide

theorem lookup_map_val {α β : Type} (f : α → β) (k : String) :
    ∀ l : List (String × α),
      List.lookup k (l.map fun p => (p.1, f p.2)) = (List.lookup k l).map f := by
  intro l
  induction l with
  | nil => rfl
  | cons p ps ih =>
    simp only [List.map, List.lookup]
    cases h : k == p.1 <;> simp [h, ih]

/-! ## C1: the round-trip example -/

set_option maxRecDepth 40000 in
/-- C1.  `interpret("very high priority for congestion")` sets
`weight_Congestion` to 0.95 — the rounded midpoint of the "very high"
interval `(0.9, 1.0)` — leaves the other three canonical keys at the default
0.1, and selects the standard optimizer. -/
theorem C1_interpret_round_trip :
    interpret_user_input "very high priority for congestion" =
      ([("weight_PublicTransport", mkRat 1 10), ("weight_Congestion", mkRat 19 20),
        ("weight_Emissions", mkRat 1 10), ("weight_OperationalCost", mkRat 1 10)],
       "standard_optimizer")
    ∧ List.lookup "very high" priority_intervals = some (mkRat 9 10, mkRat 1 1)
    ∧ round2 (qdiv (qadd (mkRat 9 10) (mkRat 1 1)) (mkRat 2 1)) = mkRat 19 20
    ∧ (mkRat 19 20 : ℚ) = mkRat 95 100 := by
  refine ⟨by decide, by decide, by decide, by decide⟩

/-! ## C4: the priority sample -/

/-- C4 counterexample.  The claim says `sample` is deterministic — any two
calls with the same label return the identical value, no random draw — and
cites `backend/app/agent_logic.py`, whose `sample_priority` draws
`round(random.uniform(lo, hi), 2)`: two draws of the unit sample (0 and 1)
give different weights for the same label, so the claim is false on that
variant. -/
theorem C4_cex_backend_sample_random :
    backend_sample_priority "very high" (mkRat 0 1) = mkRat 9 10
    ∧ backend_sample_priority "very high" (mkRat 1 1) = mkRat 1 1
    ∧ mkRat 9 10 ≠ (mkRat 1 1 : ℚ) := by
  refine ⟨by decide, by decide, by decide⟩

/-- C4 amended.  In the primary variants (`app/agent_logic.py` and the Flask
`text_processing.py`) `sample` is the deterministic, idempotent function
`label ↦ round((lo+hi)/2, 2)`: for each of the five labels it returns the
rounded midpoint of the label's interval (in the exact-rational model 0.95,
0.8, 0.6, 0.4 and 0.2); the backend variant instead draws uniformly from the
interval. -/
theorem C4_amended_sample_is_midpoint :
    (sample_priority "very high" =
      some (round2 (qdiv (qadd (mkRat 9 10) (mkRat 1 1)) (mkRat 2 1)))
      ∧ sample_priority "high" =
        some (round2 (qdiv (qadd (mkRat 7 10) (mkRat 89 100)) (mkRat 2 1)))
      ∧ sample_priority "medium" =
        some (round2 (qdiv (qadd (mkRat 5 10) (mkRat 69 100)) (mkRat 2 1)))
      ∧ sample_priority "low" =
        some (round2 (qdiv (qadd (mkRat 3 10) (mkRat 49 100)) (mkRat 2 1)))
      ∧ sample_priority "very low" =
        some (round2 (qdiv (qadd (mkRat 1 10) (mkRat 29 100)) (mkRat 2 1))))
    ∧ (sample_priority "very high" = some (mkRat 19 20)
      ∧ sample_priority "high" = some (mkRat 4 5)
      ∧ sample_priority "medium" = some (mkRat 3 5)
      ∧ sample_priority "low" = some (mkRat 2 5)
      ∧ sample_priority "very low" = some (mkRat 1 5)) := by
  exact ⟨⟨by decide, by decide, by decide, by decide, by decide⟩,
    ⟨by decide, by decide, by decide, by decide, by decide⟩⟩

/-! ## C5: the optimizer-mode keyword rule -/

set_option maxRecDepth 40000 in
/-- C5 counterexample.  `app/agent_logic.py` has a typo fallback beyond the
four advertised keywords: any input containing `"dynam"` selects the dynamic
optimizer.  `"use dynamo mode"` contains none of `dynamic`, `real-time`,
`adaptive`, `real time`, yet `interpret` returns dynamic mode — so "for
every s containing none of them, the mode is standard" is false. -/
theorem C5_cex_dynam_fallback :
    (interpret_user_input "use dynamo mode").2 = "dynamic_optimizer"
    ∧ containsSub "dynamic".data (lowerCs "use dynamo mode".data) = false
    ∧ containsSub "real-time".data (lowerCs "use dynamo mode".data) = false
    ∧ containsSub "adaptive".data (lowerCs "use dynamo mode".data) = false
    ∧ containsSub "real time".data (lowerCs "use dynamo mode".data) = false := by
  refine ⟨by decide, by decide, by decide, by decide, by decide⟩

/-- C5 amended.  `interpret` selects dynamic mode exactly when the
(lowercased) input contains one of the four keywords `dynamic`, `real-time`,
`adaptive`, `real time` — or the typo-fallback substring `dynam`; otherwise
the mode is standard. -/
theorem C5_amended_mode_rule (s : String) :
    ((interpret_user_input s).2 = "dynamic_optimizer" ↔
      (dynamic_keywords.any (fun k => containsSub k.data (lowerCs s.data)) = true
        ∨ containsSub "dynam".data (lowerCs s.data) = true))
    ∧ ((interpret_user_input s).2 = "standard_optimizer" ↔
      ¬(dynamic_keywords.any (fun k => containsSub k.data (lowerCs s.data)) = true
        ∨ containsSub "dynam".data (lowerCs s.data) = true)) := by
  have h : (interpret_user_input s).2 = optimizerTypeOf (lowerCs s.data) := rfl
  rw [h]
  unfold optimizerTypeOf
  split_ifs with h1 h2 <;> simp_all

/-! ## C3: the normalizer on a non-positive total -/

/-- C3 counterexample.  The claim says `normalize` fails with
`NonPositiveTotalError` and does not return a weight mapping when
`total <= 0`; but `normalize_weights` of `text_processing.py` returns the
input mapping unchanged on the all-zero weight mapping (whose total is 0). -/
theorem C3_cex_normalize_returns_input :
    normalize_weights
        [("weight_PublicTransport", mkRat 0 1), ("weight_Congestion", mkRat 0 1),
         ("weight_Emissions", mkRat 0 1), ("weight_OperationalCost", mkRat 0 1)] =
      [("weight_PublicTransport", mkRat 0 1), ("weight_Congestion", mkRat 0 1),
       ("weight_Emissions", mkRat 0 1), ("weight_OperationalCost", mkRat 0 1)]
    ∧ sumValues
        [("weight_PublicTransport", mkRat 0 1), ("weight_Congestion", mkRat 0 1),
         ("weight_Emissions", mkRat 0 1), ("weight_OperationalCost", mkRat 0 1)] ≤ mkRat 0 1 := by
  refine ⟨by decide, by decide⟩

/-- C3 amended.  `normalize_weights` computes `total = sum(values)`; if
`total <= 0` it returns the input mapping unchanged (no error is raised —
only the inline normalization step of the API tool answers a non-positive
total with an error result), and otherwise it returns exactly
`{k: round(v/total, 2)}` for every key `k` of the input. -/
theorem C3_amended_normalize (w : List (String × ℚ)) :
    (sumValues w ≤ 0 → normalize_weights w = w)
    ∧ (0 < sumValues w → ∀ k v, List.lookup k w = some v →
        List.lookup k (normalize_weights w) = some (round2 (qdiv v (sumValues w))))
    ∧ (sumValues w ≤ 0 →
        api_normalize_step w = Except.error "Total weights must be positive") := by
  refine ⟨?_, ?_, ?_⟩
  · intro hle
    unfold normalize_weights
    rw [if_pos (by rw [q0_def]; exact hle)]
  · intro hpos k v hkv
    unfold normalize_weights
    rw [if_neg (by rw [q0_def]; exact not_le.mpr hpos)]
    rw [lookup_map_val (fun x => round2 (qdiv x (sumValues w))) k w, hkv]
    rfl
  · intro hle
    unfold api_normalize_step
    rw [if_pos (by rw [q0_def]; exact hle)]

/-! ## C2: the normalized sum -/

theorem validate_weight_fst (v : ℚ) (k : String) :
    (validate_weight v k).1 = clamp v := by
  simp only [validate_weight, clamp, q0_def, q1_def, gt_iff_lt]
  split_ifs <;> rfl

theorem clamp_nonneg (v : ℚ) : 0 ≤ clamp v := by
  unfold clamp
  split_ifs with h1 h2
  · norm_num
  · norm_num
  · linarith

theorem clamp_pos (v : ℚ) (h : 0 < v) : 0 < clamp v := by
  unfold clamp
  split_ifs with h1 h2
  · linarith
  · norm_num
  · exact h

theorem sumValues_eq (l : List (String × ℚ)) :
    sumValues l = (l.map Prod.snd).sum := by
  rw [sumValues]
  have key : ∀ (xs : List ℚ) (a : ℚ), xs.foldl qadd a = a + xs.sum := by
    intro xs
    induction xs with
    | nil => intro a; simp
    | cons x xs ih =>
      intro a
      simp only [List.foldl, List.sum_cons, ih, qadd_eq]
      ring
  rw [key, q0_def, zero_add]

theorem sum_round2_err : ∀ xs : List ℚ,
    |(xs.map round2).sum - xs.sum| ≤ xs.length * (1/200) := by
  intro xs
  induction xs with
  | nil => simp
  | cons x xs ih =>
    simp only [List.map, List.sum_cons, List.length_cons]
    have h1 : round2 x + (xs.map round2).sum - (x + xs.sum)
        = (round2 x - x) + ((xs.map round2).sum - xs.sum) := by ring
    rw [h1]
    calc |(round2 x - x) + ((xs.map round2).sum - xs.sum)|
        ≤ |round2 x - x| + |(xs.map round2).sum - xs.sum| := abs_add _ _
      _ ≤ 1/200 + xs.length * (1/200) := add_le_add (round2_err x) ih
      _ = ((xs.length + 1 : ℕ) : ℚ) * (1/200) := by push_cast; ring

theorem normalize_pos (l : List (String × ℚ)) (hpos : 0 < sumValues l) :
    normalize_weights l = l.map fun p => (p.1, round2 (p.2 / sumValues l)) := by
  unfold normalize_weights
  rw [if_neg (by rw [q0_def]; exact not_le.mpr hpos)]
  simp [qdiv_eq]

theorem normalize_sum_bound (l : List (String × ℚ)) (hpos : 0 < sumValues l) :
    |sumValues (normalize_weights l) - 1| ≤ l.length * (1/200) := by
  have hT : sumValues l ≠ 0 := ne_of_gt hpos
  rw [normalize_pos l hpos, sumValues_eq]
  have hmap : ((l.map fun p => (p.1, round2 (p.2 / sumValues l))).map Prod.snd)
      = (l.map fun p => p.2 / sumValues l).map round2 := by
    simp [List.map_map]
  rw [hmap]
  have hdivsum : ∀ (xs : List ℚ) (c : ℚ), (xs.map (· / c)).sum = xs.sum / c := by
    intro xs c
    induction xs with
    | nil => simp
    | cons x xs ih => simp [List.sum_cons, ih, add_div]
  have hsum1 : (l.map fun p => p.2 / sumValues l).sum = 1 := by
    have hmm : (l.map fun p => p.2 / sumValues l) = (l.map Prod.snd).map (· / sumValues l) := by
      simp [List.map_map]
    rw [hmm, hdivsum, ← sumValues_eq]
    field_simp
  have hlen : (l.map fun p => p.2 / sumValues l).length = l.length := by simp
  calc |((l.map fun p => p.2 / sumValues l).map round2).sum - 1|
      = |((l.map fun p => p.2 / sumValues l).map round2).sum
          - (l.map fun p => p.2 / sumValues l).sum| := by rw [hsum1]
    _ ≤ (l.map fun p => p.2 / sumValues l).length * (1/200) := sum_round2_err _
    _ = l.length * (1/200) := by rw [hlen]

/-- C2.  For every weight mapping over the four canonical keys with at least
one positive value, the values of `normalize(validate(W))` sum to 1 within
±0.02: each entry is clamped into [0,1], so the clamped total is positive,
and the four per-entry roundings move the exact sum 1 by at most 4·0.005. -/
theorem C2_normalize_validate_sum (w1 w2 w3 w4 : ℚ)
    (h : 0 < w1 ∨ 0 < w2 ∨ 0 < w3 ∨ 0 < w4) :
    |sumValues (normalize_weights
        (validate_weights
          [("weight_PublicTransport", w1), ("weight_Congestion", w2),
           ("weight_Emissions", w3), ("weight_OperationalCost", w4)]).1) - 1|
      ≤ 1/50 := by
  have hval : (validate_weights
      [("weight_PublicTransport", w1), ("weight_Congestion", w2),
       ("weight_Emissions", w3), ("weight_OperationalCost", w4)]).1
      = [("weight_PublicTransport", (validate_weight w1 "weight_PublicTransport").1),
         ("weight_Congestion", (validate_weight w2 "weight_Congestion").1),
         ("weight_Emissions", (validate_weight w3 "weight_Emissions").1),
         ("weight_OperationalCost", (validate_weight w4 "weight_OperationalCost").1)] := rfl
  rw [hval]
  simp only [validate_weight_fst]
  have hsum : sumValues
      [("weight_PublicTransport", clamp w1), ("weight_Congestion", clamp w2),
       ("weight_Emissions", clamp w3), ("weight_OperationalCost", clamp w4)]
      = clamp w1 + clamp w2 + clamp w3 + clamp w4 := by
    rw [sumValues_eq]
    simp [List.sum_cons]
    ring
  have hpos : 0 < sumValues
      [("weight_PublicTransport", clamp w1), ("weight_Congestion", clamp w2),
       ("weight_Emissions", clamp w3), ("weight_OperationalCost", clamp w4)] := by
    rw [hsum]
    have n1 := clamp_nonneg w1
    have n2 := clamp_nonneg w2
    have n3 := clamp_nonneg w3
    have n4 := clamp_nonneg w4
    rcases h with h | h | h | h
    · have := clamp_pos w1 h; linarith
    · have := clamp_pos w2 h; linarith
    · have := clamp_pos w3 h; linarith
    · have := clamp_pos w4 h; linarith
  have hb := normalize_sum_bound _ hpos
  simp only [List.length_cons, List.length_nil] at hb
  calc |sumValues (normalize_weights _) - 1| ≤ (0+1+1+1+1) * (1/200) := by
        exact_mod_cast hb
    _ = 1/50 := by norm_num

/-- C2 witness: the mapping (1, 0, 0, 0) has a positive value and its
normalized validated values sum to 1 within ±0.02. -/
theorem C2_witness :
    |sumValues (normalize_weights
        (validate_weights
          [("weight_PublicTransport", 1), ("weight_Congestion", 0),
           ("weight_Emissions", 0), ("weight_OperationalCost", 0)]).1) - 1|
      ≤ 1/50 :=
  C2_normalize_validate_sum 1 0 0 0 (Or.inl one_pos)

/-! ## C6: the weight validator -/

theorem startsWithCs_append_self (p y : List Char) :
    startsWithCs p (p ++ y) = true := by
  induction p with
  | nil => simp [startsWithCs, dropLit]
  | cons c cs ih =>
    simp only [startsWithCs, List.cons_append, dropLit, if_pos rfl]
    exact ih

theorem containsSub_append_self : ∀ (x p y : List Char),
    containsSub p (x ++ p ++ y) = true := by
  intro x
  induction x with
  | nil =>
    intro p y
    simp only [List.nil_append]
    cases e : p ++ y with
    | nil =>
      have hp : p = [] := by
        rcases List.append_eq_nil.mp e with ⟨h1, _⟩
        exact h1
      subst hp
      rfl
    | cons c cs =>
      have hsw : startsWithCs p (c :: cs) = true := by
        rw [← e]
        exact startsWithCs_append_self p y
      rw [containsSub, hsw, Bool.true_or]
  | cons a x' ih =>
    intro p y
    have h2 := ih p y
    have hshape : (a :: x') ++ p ++ y = a :: (x' ++ p ++ y) := by simp
    rw [hshape, containsSub, h2, Bool.or_true]

theorem dictSet_append (l : List (String × ℚ)) (k : String) (v : ℚ)
    (hk : k ∉ l.map Prod.fst) : dictSet l k v = l ++ [(k, v)] := by
  induction l with
  | nil => rfl
  | cons q l ih =>
    simp only [List.map, List.mem_cons, not_or] at hk
    rw [dictSet, if_neg (fun h => hk.1 h.symm), ih hk.2]
    rfl

theorem validate_weight_warn_of (v : ℚ) (k : String) (h : v < 0 ∨ 1 < v) :
    (validate_weight v k).2 ≠ "" := by
  unfold validate_weight
  rw [q0_def, q1_def]
  rcases h with h | h
  · rw [if_pos h]
    intro hcontra
    have := congrArg String.data hcontra
    simp [String.data_append] at this
  · rw [if_neg (by linarith), if_pos (by exact h)]
    intro hcontra
    have := congrArg String.data hcontra
    simp [String.data_append] at this

theorem validate_weight_in_range (v : ℚ) (k : String) (h0 : 0 ≤ v) (h1 : v ≤ 1) :
    validate_weight v k = (v, "") := by
  unfold validate_weight
  rw [q0_def, q1_def, if_neg (by linarith), if_neg (by simp; linarith)]

theorem validate_weights_go : ∀ (w : List (String × ℚ))
    (vacc : List (String × ℚ)) (wacc : List String),
    (∀ k ∈ w.map Prod.fst, k ∉ vacc.map Prod.fst) →
    (w.map Prod.fst).Nodup →
    w.foldl
      (fun acc p =>
        let r := validate_weight p.2 p.1
        (dictSet acc.1 p.1 r.1, if r.2 ≠ "" then acc.2 ++ [r.2] else acc.2))
      (vacc, wacc)
    = (vacc ++ w.map (fun p => (p.1, clamp p.2)),
       wacc ++ (w.filter fun p => decide (p.2 < 0) || decide (1 < p.2)).map
         fun p => (validate_weight p.2 p.1).2) := by
  intro w
  induction w with
  | nil => intro vacc wacc _ _; simp
  | cons p ps ih =>
    intro vacc wacc hdisj hnd
    simp only [List.map, List.nodup_cons] at hnd
    have hp1 : p.1 ∉ vacc.map Prod.fst :=
      hdisj p.1 (by simp)
    simp only [List.foldl]
    rw [dictSet_append vacc p.1 _ hp1, validate_weight_fst]
    by_cases hrange : p.2 < 0 ∨ 1 < p.2
    · rw [if_pos (validate_weight_warn_of p.2 p.1 hrange)]
      rw [ih (vacc ++ [(p.1, clamp p.2)]) (wacc ++ [(validate_weight p.2 p.1).2]) ?_ hnd.2]
      · have hfil : (List.filter (fun p => decide (p.2 < 0) || decide (1 < p.2)) (p :: ps))
            = p :: List.filter (fun p => decide (p.2 < 0) || decide (1 < p.2)) ps := by
          rw [List.filter_cons, if_pos (by simpa using hrange)]
        rw [hfil]
        simp [List.append_assoc]
      · intro k hk
        simp only [List.map_append, List.map, List.mem_append, List.mem_singleton, not_or]
        refine ⟨hdisj k (by simp [hk]), ?_⟩
        intro hcontra
        subst hcontra
        exact hnd.1 hk
    · push_neg at hrange
      have hvw := validate_weight_in_range p.2 p.1 hrange.1 hrange.2
      rw [if_neg (by rw [hvw]; simp)]
      rw [ih (vacc ++ [(p.1, clamp p.2)]) wacc ?_ hnd.2]
      · have hfil : (List.filter (fun p => decide (p.2 < 0) || decide (1 < p.2)) (p :: ps))
            = List.filter (fun p => decide (p.2 < 0) || decide (1 < p.2)) ps := by
          rw [List.filter_cons, if_neg (by simp; constructor <;> [linarith [hrange.1]; linarith [hrange.2]])]
        rw [hfil]
        simp [List.append_assoc]
      · intro k hk
        simp only [List.map_append, List.map, List.mem_append, List.mem_singleton, not_or]
        refine ⟨hdisj k (by simp [hk]), ?_⟩
        intro hcontra
        subst hcontra
        exact hnd.1 hk

/-- C6.  `validate` clamps each negative entry to 0 and each entry above 1
to 1 (emitting one warning that mentions the parameter key and the original
value), passes every in-range value through unchanged with no warning, and
the warning list follows the mapping's insertion order (it is the filtered
mapping's warnings in order); in particular `validate({"k": -0.5})` yields
`({"k": 0}, [one warning mentioning "k" and "-0.5"])`. -/
theorem C6_validate_clamps_and_warns (w : List (String × ℚ))
    (hnd : (w.map Prod.fst).Nodup) :
    ((validate_weights w).1 = w.map fun p => (p.1, clamp p.2))
    ∧ ((validate_weights w).2 =
        (w.filter fun p => decide (p.2 < 0) || decide (1 < p.2)).map
          fun p => (validate_weight p.2 p.1).2)
    ∧ (∀ p ∈ w, 0 ≤ p.2 → p.2 ≤ 1 → validate_weight p.2 p.1 = (p.2, ""))
    ∧ (∀ p ∈ w, p.2 < 0 →
        (validate_weight p.2 p.1).1 = 0
        ∧ containsSub p.1.data (validate_weight p.2 p.1).2.data = true
        ∧ containsSub (qRepr p.2).data (validate_weight p.2 p.1).2.data = true)
    ∧ (∀ p ∈ w, 1 < p.2 →
        (validate_weight p.2 p.1).1 = 1
        ∧ containsSub p.1.data (validate_weight p.2 p.1).2.data = true
        ∧ containsSub (qRepr p.2).data (validate_weight p.2 p.1).2.data = true)
    ∧ validate_weights [("k", mkRat (-1) 2)]
        = ([("k", mkRat 0 1)],
           ["Warning: Weight for k (-0.5) was negative. Adjusted to 0."])
    ∧ containsSub "k".data
        "Warning: Weight for k (-0.5) was negative. Adjusted to 0.".data = true
    ∧ containsSub "-0.5".data
        "Warning: Weight for k (-0.5) was negative. Adjusted to 0.".data = true := by
  have hgo := validate_weights_go w [] [] (by simp) hnd
  refine ⟨?_, ?_, ?_, ?_, ?_, by decide, by decide, by decide⟩
  · unfold validate_weights
    rw [hgo]
    simp
  · unfold validate_weights
    rw [hgo]
    simp
  · intro p _ h0 h1
    exact validate_weight_in_range p.2 p.1 h0 h1
  · intro p _ hneg
    unfold validate_weight
    rw [q0_def, q1_def, if_pos hneg]
    refine ⟨rfl, ?_, ?_⟩
    · have hdata : ("Warning: Weight for " ++ p.1 ++ " (" ++ qRepr p.2
          ++ ") was negative. Adjusted to 0.").data
          = "Warning: Weight for ".data ++ p.1.data
            ++ (" (" ++ qRepr p.2 ++ ") was negative. Adjusted to 0.").data := by
        simp [String.data_append, List.append_assoc]
      rw [hdata]
      exact containsSub_append_self _ _ _
    · have hdata : ("Warning: Weight for " ++ p.1 ++ " (" ++ qRepr p.2
          ++ ") was negative. Adjusted to 0.").data
          = ("Warning: Weight for " ++ p.1 ++ " (").data ++ (qRepr p.2).data
            ++ ") was negative. Adjusted to 0.".data := by
        simp [String.data_append, List.append_assoc]
      rw [hdata]
      exact containsSub_append_self _ _ _
  · intro p _ hgt
    unfold validate_weight
    rw [q0_def, q1_def, if_neg (by linarith), if_pos (by exact hgt)]
    refine ⟨rfl, ?_, ?_⟩
    · have hdata : ("Warning: Weight for " ++ p.1 ++ " (" ++ qRepr p.2
          ++ ") exceeded 1. Adjusted to 1.").data
          = "Warning: Weight for ".data ++ p.1.data
            ++ (" (" ++ qRepr p.2 ++ ") exceeded 1. Adjusted to 1.").data := by
        simp [String.data_append, List.append_assoc]
      rw [hdata]
      exact containsSub_append_self _ _ _
    · have hdata : ("Warning: Weight for " ++ p.1 ++ " (" ++ qRepr p.2
          ++ ") exceeded 1. Adjusted to 1.").data
          = ("Warning: Weight for " ++ p.1 ++ " (").data ++ (qRepr p.2).data
            ++ ") exceeded 1. Adjusted to 1.".data := by
        simp [String.data_append, List.append_assoc]
      rw [hdata]
      exact containsSub_append_self _ _ _

/-- C6 witness: the theorem applied to the mapping `{"k": -0.5}`. -/
theorem C6_witness :
    (validate_weights [("k", mkRat (-1) 2)]).1
      = [("k", clamp (mkRat (-1) 2))] :=
  (C6_validate_clamps_and_warns [("k", mkRat (-1) 2)] (by decide)).1

/-! ## C7: the standard-mode formatter -/

theorem q100_def : (mkRat 100 1 : ℚ) = 100 := by decide

theorem stdLinesJ_map (dl : List (String × ℚ)) :
    stdLinesJ (dl.map fun p => (p.1, J.num p.2))
      = some (dl.map fun p => stdLine p.1 p.2) := by
  induction dl with
  | nil => rfl
  | cons d ds ih => simp [stdLinesJ, ih]

/-- C7.  In standard mode the formatter reads `response.KPIs.difference`:
when it is empty or absent the output is the "no differences found" sentence
naming the Traffic Optimizer (no exception); otherwise one line per metric,
in mapping order, chosen by the sign of the value — positive improves,
negative worsens with `pct = abs(round(value*100, 2))`, zero shows no change
with the percentage omitted; in particular the response
`{"KPIs": {"difference": {"Delay": 0.0421}}}` yields the literal substring
`The KPI 'Delay' improves by 4.21%.`. -/
theorem C7_standard_formatter (dl : List (String × ℚ)) :
    (extract_and_format_results (mkStdResp dl) "standard_optimizer"
      = some ((if dl.isEmpty then "No Traffic Optimizer differences found in the response."
               else String.intercalate "\n"
                 ("Traffic Optimizer Results:" :: dl.map fun p => stdLine p.1 p.2)),
              mkStdResp dl))
    ∧ (extract_and_format_results [] "standard_optimizer"
        = some ("No Traffic Optimizer differences found in the response.", []))
    ∧ (∀ m : String, ∀ v : ℚ, 0 < v → stdLine m v
        = "- The KPI '" ++ m ++ "' improves by " ++ qRepr |round2 (v * 100)| ++ "%.")
    ∧ (∀ m : String, ∀ v : ℚ, v < 0 → stdLine m v
        = "- The KPI '" ++ m ++ "' worsens by " ++ qRepr |round2 (v * 100)| ++ "%.")
    ∧ (∀ m : String, stdLine m 0 = "- The KPI '" ++ m ++ "' shows no change.")
    ∧ containsSub "The KPI 'Delay' improves by 4.21%.".data
        (((extract_and_format_results
            [("KPIs", J.obj [("difference", J.obj [("Delay", J.num (mkRat 421 10000))])])]
            "standard_optimizer").map Prod.fst).getD "").data = true := by
  refine ⟨?_, by rfl, ?_, ?_, ?_, by decide⟩
  · cases dl with
    | nil => rfl
    | cons d ds =>
      have h1 : extract_and_format_results (mkStdResp (d :: ds)) "standard_optimizer"
          = match stdLinesJ ((d :: ds).map fun p => (p.1, J.num p.2)) with
            | some ls => some (String.intercalate "\n"
                ([] ++ ["Traffic Optimizer Results:"] ++ ls), mkStdResp (d :: ds))
            | none => none := rfl
      rw [h1, stdLinesJ_map]
      simp
  · intro m v hv
    unfold stdLine
    rw [qmul_eq, q100_def, q0_def, if_pos hv]
  · intro m v hv
    unfold stdLine
    rw [qmul_eq, q100_def, q0_def, if_neg (by linarith), if_pos hv]
  · intro m
    unfold stdLine
    rw [qmul_eq, q100_def, q0_def, if_neg (by norm_num), if_neg (by norm_num)]

/-! ## C8: the dynamic-mode formatter -/

theorem dynFound_eq (d : List (String × ℚ)) :
    (expected_kpis.filterMap fun k =>
      (List.lookup k (mkNumObj d)).map fun v =>
        "The value for '" ++ k ++ "' is " ++ jRender v ++ ".")
    = dynFound d := by
  unfold dynFound mkNumObj
  congr 1
  funext k
  rw [lookup_map_val J.num k d]
  cases List.lookup k d <;> rfl

theorem tp_dyn_eval (r : List (String × J))
    (hd : List.lookup "data" r = none)
    (hdp : List.lookup "debug_payload" r = none) :
    tp_extract_and_format_results r "dynamic_optimizer"
      = (if (expected_kpis.filterMap fun k =>
            (List.lookup k r).map fun v =>
              "The value for '" ++ k ++ "' is " ++ jRender v ++ ".").isEmpty
         then some "No dynamic optimizer results found or results are not in the expected format."
         else some (String.intercalate "\n"
           ("🚦 Dynamic Traffic Optimizer Results:" ::
             (expected_kpis.filterMap fun k =>
               (List.lookup k r).map fun v =>
                 "The value for '" ++ k ++ "' is " ++ jRender v ++ ".")))) := by
  unfold tp_extract_and_format_results
  rw [if_neg (by decide), if_pos rfl]
  rw [hd]
  simp only [hasKeyJ, hdp, Option.isSome_none, Bool.false_eq_true, if_false]
  rfl

/-- C8.  In dynamic mode the Flask formatter reads the four expected KPI
names (`Income`, `Congestion inside`, `Congestion (Delay)`, `Emissions`)
from the response root or its `data` sub-mapping; for each name present it
emits `The value for '{name}' is {value}.` with no percentage transform, and
when none of the four is present it returns the "no results found"
sentence. -/
theorem C8_dynamic_formatter (d : List (String × ℚ)) :
    (tp_extract_and_format_results [("data", J.obj (mkNumObj d))] "dynamic_optimizer"
      = some (dynOut d))
    ∧ (List.lookup "data" (mkNumObj d) = none →
        List.lookup "debug_payload" (mkNumObj d) = none →
        tp_extract_and_format_results (mkNumObj d) "dynamic_optimizer" = some (dynOut d))
    ∧ ((∀ k ∈ expected_kpis, List.lookup k d = none) →
        dynOut d = "No dynamic optimizer results found or results are not in the expected format.")
    ∧ (∀ (k : String) (v : ℚ), k ∈ expected_kpis → List.lookup k d = some v →
        ("The value for '" ++ k ++ "' is " ++ qRepr v ++ ".") ∈ dynFound d)
    ∧ (¬(dynFound d).isEmpty = true →
        dynOut d = String.intercalate "\n"
          ("🚦 Dynamic Traffic Optimizer Results:" :: dynFound d)) := by
  refine ⟨?_, ?_, ?_, ?_, ?_⟩
  · have h0 : tp_extract_and_format_results [("data", J.obj (mkNumObj d))] "dynamic_optimizer"
        = (if (expected_kpis.filterMap fun k =>
              (List.lookup k (mkNumObj d)).map fun v =>
                "The value for '" ++ k ++ "' is " ++ jRender v ++ ".").isEmpty
           then some "No dynamic optimizer results found or results are not in the expected format."
           else some (String.intercalate "\n"
             ("🚦 Dynamic Traffic Optimizer Results:" ::
               (expected_kpis.filterMap fun k =>
                 (List.lookup k (mkNumObj d)).map fun v =>
                   "The value for '" ++ k ++ "' is " ++ jRender v ++ ".")))) := rfl
    rw [h0, dynFound_eq]
    unfold dynOut
    split <;> rfl
  · intro hd hdp
    rw [tp_dyn_eval (mkNumObj d) hd hdp, dynFound_eq]
    unfold dynOut
    split <;> rfl
  · intro h
    have e : dynFound d = [] := by
      unfold dynFound
      have h1 := h "Income" (by simp [expected_kpis])
      have h2 := h "Congestion inside" (by simp [expected_kpis])
      have h3 := h "Congestion (Delay)" (by simp [expected_kpis])
      have h4 := h "Emissions" (by simp [expected_kpis])
      simp [expected_kpis, List.filterMap, h1, h2, h3, h4]
    unfold dynOut
    rw [e]
    rfl
  · intro k v hk hkv
    unfold dynFound
    exact List.mem_filterMap.mpr ⟨k, hk, by rw [hkv]; rfl⟩
  · intro h
    unfold dynOut
    rw [if_neg h]

/-! ## C9: the formatter mutates its input -/

theorem lookup_none_no_key (k : String) :
    ∀ l : List (String × J), List.lookup k l = none → ∀ p ∈ l, p.1 ≠ k := by
  intro l
  induction l with
  | nil => intro _ p hp; cases hp
  | cons q l ih =>
    intro h p hp hc
    rw [List.lookup] at h
    cases hqe : (k == q.1) with
    | true => rw [hqe] at h; cases h
    | false =>
      rw [hqe] at h
      rcases List.mem_cons.mp hp with hpq | hpq
      · rw [hpq] at hc
        rw [hc] at hqe
        simp at hqe
      · exact ih h p hpq hc

theorem filter_keep_of_no_key (k : String) :
    ∀ l : List (String × J), (∀ p ∈ l, p.1 ≠ k) →
      l.filter (fun p => !(p.1 == k)) = l := by
  intro l
  induction l with
  | nil => intro _; rfl
  | cons q l ih =>
    intro h
    rw [List.filter_cons, if_pos (by simp [h q (by simp)])]
    rw [ih fun p hp => h p (by simp [hp])]

theorem eraseKey_eq_filter (l : List (String × J)) (k : String)
    (hnd : (l.map Prod.fst).Nodup) :
    eraseKey l k = l.filter (fun p => !(p.1 == k)) := by
  induction l with
  | nil => rfl
  | cons q l ih =>
    simp only [List.map, List.nodup_cons] at hnd
    by_cases hq : q.1 = k
    · rw [eraseKey, if_pos hq, List.filter_cons, if_neg (by simp [hq])]
      refine (filter_keep_of_no_key k l fun p hp hc => ?_).symm
      exact hnd.1 (by rw [hq, ← hc]; exact List.mem_map_of_mem Prod.fst hp)
    · rw [eraseKey, if_neg hq, List.filter_cons, if_pos (by simp [hq]), ih hnd.2]

/-- C9 counterexample.  The claim says evaluating `format(r, m)` leaves `r`
unchanged; but the app formatter pops `debug_payload` out of the caller's
dict: on the response `{"debug_payload": 1.0}` the dict is empty after the
call. -/
theorem C9_cex_format_pops_keys :
    extract_and_format_results [("debug_payload", J.num (mkRat 1 1))] "standard_optimizer"
      = some ("No Traffic Optimizer differences found in the response.", [])
    ∧ ([("debug_payload", J.num (mkRat 1 1))] : List (String × J)) ≠ [] := by
  exact ⟨rfl, by simp⟩

/-- C9 amended.  The formatter is a pure function of its input (no other
state), but it does mutate the response dict it is handed: whenever
`format(r, m)` returns, the dict holds exactly the entries of `r` whose keys
are neither `debug_payload` nor `validation_warnings`, in their original
order; every other key is removed and none is added. -/
theorem C9_amended_format_residual (r : List (String × J)) (m : String)
    (out : String × List (String × J))
    (hnd : (r.map Prod.fst).Nodup)
    (h : extract_and_format_results r m = some out) :
    out.2 = r.filter fun p =>
      !(p.1 == "debug_payload") && !(p.1 == "validation_warnings") := by
  unfold extract_and_format_results at h
  cases hm : api_config m with
  | none => rw [hm] at h; cases h
  | some cfg =>
    rw [hm] at h
    obtain ⟨opk, dk, nm⟩ := cfg
    dsimp only at h
    have hr1 : (if hasKeyJ r "debug_payload" then eraseKey r "debug_payload" else r)
        = r.filter (fun p => !(p.1 == "debug_payload")) := by
      by_cases hd : hasKeyJ r "debug_payload"
      · rw [if_pos hd]
        exact eraseKey_eq_filter r _ hnd
      · rw [if_neg hd]
        refine (filter_keep_of_no_key _ r ?_).symm
        apply lookup_none_no_key
        unfold hasKeyJ at hd
        exact Option.not_isSome_iff_eq_none.mp (by simpa using hd)
    rw [hr1] at h
    have hnd1 : ((r.filter fun p => !(p.1 == "debug_payload")).map Prod.fst).Nodup := by
      refine List.Nodup.sublist ?_ hnd
      exact List.Sublist.map Prod.fst (List.filter_sublist r)
    have htarget : (r.filter fun p => !(p.1 == "debug_payload")).filter
          (fun p => !(p.1 == "validation_warnings"))
        = r.filter fun p =>
            !(p.1 == "debug_payload") && !(p.1 == "validation_warnings") := by
      rw [List.filter_filter]
      exact List.filter_congr fun a _ => Bool.and_comm _ _
    by_cases hw : hasKeyJ (r.filter fun p => !(p.1 == "debug_payload")) "validation_warnings"
    · rw [if_pos hw] at h
      cases hlv : List.lookup "validation_warnings"
          (r.filter fun p => !(p.1 == "debug_payload")) with
      | none => rw [hlv] at h; cases h
      | some jv =>
        rw [hlv] at h
        cases jv with
        | arr ws =>
          rw [eraseKey_eq_filter _ _ hnd1, htarget] at h
          dsimp only at h
          repeat' split at h
          all_goals
            first
            | exact Option.noConfusion h
            | (injection h with h2; rw [← h2])
        | num q => exact Option.noConfusion h
        | str s => exact Option.noConfusion h
        | bool b => exact Option.noConfusion h
        | null => exact Option.noConfusion h
        | obj o => exact Option.noConfusion h
    · rw [if_neg hw] at h
      have hkeep : (r.filter fun p => !(p.1 == "debug_payload")).filter
            (fun p => !(p.1 == "validation_warnings"))
          = (r.filter fun p => !(p.1 == "debug_payload")) := by
        refine filter_keep_of_no_key _ _ ?_
        apply lookup_none_no_key
        unfold hasKeyJ at hw
        exact Option.not_isSome_iff_eq_none.mp (by simpa using hw)
      dsimp only at h
      repeat' split at h
      all_goals
        first
        | exact Option.noConfusion h
        | (injection h with h2; rw [← h2]; exact (htarget.symm.trans hkeep).symm)

/-- C9 witness: the amended theorem at the concrete response
`{"debug_payload": 1.0, "x": 2.0}` in standard mode. -/
theorem C9_witness :
    (("No Traffic Optimizer differences found in the response.",
        ([("x", J.num (mkRat 2 1))] : List (String × J))).2
      = List.filter (fun p => !(p.1 == "debug_payload") && !(p.1 == "validation_warnings"))
          [("debug_payload", J.num (mkRat 1 1)), ("x", J.num (mkRat 2 1))]) :=
  C9_amended_format_residual
    [("debug_payload", J.num (mkRat 1 1)), ("x", J.num (mkRat 2 1))]
    "standard_optimizer"
    ("No Traffic Optimizer differences found in the response.", [("x", J.num (mkRat 2 1))])
    (by simp) rfl

/-! ## C10: the interpreter output invariant -/

theorem lookup_mem_values (k : String) :
    ∀ pm : List (String × String), ∀ v,
      List.lookup k pm = some v → v ∈ pm.map Prod.snd := by
  intro pm
  induction pm with
  | nil => intro v h; cases h
  | cons q ps ih =>
    intro v h
    rw [List.lookup] at h
    cases hq : (k == q.1) with
    | true =>
      rw [hq] at h
      injection h with h2
      simp [← h2]
    | false =>
      rw [hq] at h
      simp only [List.map, List.mem_cons]
      exact Or.inr (ih v h)

theorem bestMatch_go (q : List Char) :
    ∀ (pm : List (String × String)) (acc : Option ((String × String) × ℚ))
      (pr : String × String) (sc : ℚ),
      pm.foldl (fun acc p =>
        let sc := fuzzRatio q p.1.data
        match acc with
        | none => some (p, sc)
        | some (_, sc') => if sc > sc' then some (p, sc) else acc) acc = some (pr, sc)
      → pr ∈ pm ∨ ∃ sc', acc = some (pr, sc') := by
  intro pm
  induction pm with
  | nil => intro acc pr sc h; exact Or.inr ⟨sc, h⟩
  | cons p ps ih =>
    intro acc pr sc h
    rw [List.foldl] at h
    rcases ih _ pr sc h with hmem | ⟨sc', hacc⟩
    · exact Or.inl (List.mem_cons_of_mem p hmem)
    · cases acc with
      | none =>
        simp only at hacc
        injection hacc with h2
        have h3 : p = pr := congrArg Prod.fst h2
        rw [← h3]
        exact Or.inl (List.mem_cons_self p ps)
      | some b =>
        obtain ⟨pr0, sc0⟩ := b
        simp only at hacc
        split at hacc
        · injection hacc with h2
          have h3 : p = pr := congrArg Prod.fst h2
          rw [← h3]
          exact Or.inl (List.mem_cons_self p ps)
        · exact Or.inr ⟨sc', hacc⟩

theorem bestMatch_mem (q : List Char) (pm : List (String × String))
    (pr : String × String) (sc : ℚ) (h : bestMatch q pm = some (pr, sc)) :
    pr ∈ pm := by
  unfold bestMatch at h
  rcases bestMatch_go q pm none pr sc h with hmem | ⟨_, hacc⟩
  · exact hmem
  · cases hacc

theorem find_parameter_canonical (ph : String) (c : ℚ) (k : String)
    (h : find_parameter_improved ph param_map c = some k) : k ∈ canonical_keys := by
  unfold find_parameter_improved at h
  dsimp only at h
  split at h
  · next v e =>
    injection h with h2
    have hv := lookup_mem_values _ param_map v e
    rw [← h2]
    simpa [param_map, canonical_keys] using hv
  · split at h
    · cases h
    · next pr score e2 =>
      split at h
      · injection h with h2
        have hmem := bestMatch_mem _ param_map pr score e2
        rw [← h2]
        have : pr.2 ∈ param_map.map Prod.snd := List.mem_map_of_mem Prod.snd hmem
        simpa [param_map, canonical_keys] using this
      · cases h

theorem sampleP_nonneg (l : PLabel) : 0 ≤ sampleP l := by
  cases l <;> decide

theorem ratOfDigits_nonneg (ip fp : List Char) : 0 ≤ ratOfDigits ip fp := by
  rw [ratOfDigits, qadd_eq, qdiv_eq, Rat.mkRat_eq_div, Rat.mkRat_eq_div, Rat.mkRat_eq_div]
  positivity

theorem dictSet_keys_mem (v : ℚ) (k : String) :
    ∀ l : List (String × ℚ), k ∈ l.map Prod.fst →
      (dictSet l k v).map Prod.fst = l.map Prod.fst := by
  intro l
  induction l with
  | nil => intro h; cases h
  | cons p ps ih =>
    intro h
    by_cases hp : p.1 = k
    · rw [dictSet, if_pos hp]
      simp [hp]
    · rw [dictSet, if_neg hp]
      have hk : k ∈ ps.map Prod.fst := by
        rcases List.mem_cons.mp h with hh | hh
        · exact absurd hh.symm hp
        · exact hh
      simp [ih hk]

theorem dictSet_values_nonneg (v : ℚ) (k : String) (hv : 0 ≤ v) :
    ∀ l : List (String × ℚ), (∀ p ∈ l, 0 ≤ p.2) →
      ∀ p ∈ dictSet l k v, 0 ≤ p.2 := by
  intro l
  induction l with
  | nil =>
    intro _ p hp
    have h := List.mem_singleton.mp hp
    rw [h]
    exact hv
  | cons q ps ih =>
    intro hl p hp
    by_cases hq : q.1 = k
    · rw [dictSet, if_pos hq] at hp
      rcases List.mem_cons.mp hp with h | hp2
      · rw [h]; exact hv
      · exact hl p (List.mem_cons_of_mem q hp2)
    · rw [dictSet, if_neg hq] at hp
      rcases List.mem_cons.mp hp with h | hp2
      · rw [h]; exact hl q (List.mem_cons_self q ps)
      · exact ih (fun p2 hp2 => hl p2 (List.mem_cons_of_mem q hp2)) p hp2

set_option maxHeartbeats 1000000 in
theorem applyQualMatch_preserves (w : List (String × ℚ)) (lab : PLabel)
    (phrase : List Char)
    (hP : w.map Prod.fst = canonical_keys ∧ ∀ p ∈ w, 0 ≤ p.2) :
    (applyQualMatch w lab phrase).map Prod.fst = canonical_keys
    ∧ ∀ p ∈ applyQualMatch w lab phrase, 0 ≤ p.2 := by
  unfold applyQualMatch
  cases e : find_parameter_improved
      (clean_param_phrase (String.mk (stripCs phrase))) param_map (mkRat 60 1) with
  | none => exact hP
  | some k =>
    have hkw : k ∈ w.map Prod.fst := by
      rw [hP.1]
      exact find_parameter_canonical _ _ k e
    exact ⟨by rw [dictSet_keys_mem _ _ _ hkw, hP.1],
      dictSet_values_nonneg _ _ (sampleP_nonneg lab) w hP.2⟩

set_option maxHeartbeats 1000000 in
theorem applyNumericMatch_preserves (w : List (String × ℚ)) (phrase ip fp : List Char)
    (hP : w.map Prod.fst = canonical_keys ∧ ∀ p ∈ w, 0 ≤ p.2) :
    (applyNumericMatch w phrase ip fp).map Prod.fst = canonical_keys
    ∧ ∀ p ∈ applyNumericMatch w phrase ip fp, 0 ≤ p.2 := by
  unfold applyNumericMatch
  cases e : find_parameter_improved
      (clean_param_phrase (String.mk (stripCs phrase))) param_map (mkRat 60 1) with
  | none => exact hP
  | some k =>
    have hkw : k ∈ w.map Prod.fst := by
      rw [hP.1]
      exact find_parameter_canonical _ _ k e
    exact ⟨by rw [dictSet_keys_mem _ _ _ hkw, hP.1],
      dictSet_values_nonneg _ _ (ratOfDigits_nonneg ip fp) w hP.2⟩

theorem foldl_preserves {α β : Type} (P : α → Prop) (f : α → β → α)
    (hstep : ∀ a b, P a → P (f a b)) :
    ∀ (l : List β) (a : α), P a → P (l.foldl f a) := by
  intro l
  induction l with
  | nil => intro a h; exact h
  | cons b bs ih => intro a h; exact ih (f a b) (hstep a b h)

/-- C10.  For every input string, the interpreter's weight mapping has
exactly the four canonical keys in their default order, and every value is
non-negative (defaults 0.1, qualitative writes are positive rounded
midpoints, numeric writes parse unsigned literals); consequently the
validator's negative-clamp branch is unreachable on interpreter output —
`validate_weight` either clamps to 1 with the exceeded warning or passes the
value through with no warning. -/
theorem C10_interpreter_invariant (s : String) :
    ((interpret_user_input s).1.map Prod.fst = canonical_keys)
    ∧ (∀ p ∈ (interpret_user_input s).1, 0 ≤ p.2)
    ∧ (∀ p ∈ (interpret_user_input s).1,
        validate_weight p.2 p.1
          = if 1 < p.2 then
              (1, "Warning: Weight for " ++ p.1 ++ " (" ++ qRepr p.2
                ++ ") exceeded 1. Adjusted to 1.")
            else (p.2, "")) := by
  have h0 : default_weights.map Prod.fst = canonical_keys
      ∧ ∀ p ∈ default_weights, 0 ≤ p.2 := by
    constructor
    · decide
    · decide
  have hmain : ((interpret_user_input s).1.map Prod.fst = canonical_keys)
      ∧ ∀ p ∈ (interpret_user_input s).1, 0 ≤ p.2 := by
    have hA := foldl_preserves
      (fun w => w.map Prod.fst = canonical_keys ∧ ∀ p ∈ w, 0 ≤ p.2)
      (fun w (m : PLabel × List Char) => applyQualMatch w m.1 m.2)
      (fun w m hw => applyQualMatch_preserves w m.1 m.2 hw)
      (findAllA ((lowerCs s.data).length + 1) (lowerCs s.data)) default_weights h0
    have hB := foldl_preserves
      (fun w => w.map Prod.fst = canonical_keys ∧ ∀ p ∈ w, 0 ≤ p.2)
      (fun w (m : List Char × PLabel) => applyQualMatch w m.2 m.1)
      (fun w m hw => applyQualMatch_preserves w m.2 m.1 hw)
      (findAllB ((lowerCs s.data).length + 1) (lowerCs s.data)) _ hA
    have hC := foldl_preserves
      (fun w => w.map Prod.fst = canonical_keys ∧ ∀ p ∈ w, 0 ≤ p.2)
      (fun w (m : List Char × List Char × List Char) => applyNumericMatch w m.1 m.2.1 m.2.2)
      (fun w m hw => applyNumericMatch_preserves w m.1 m.2.1 m.2.2 hw)
      (findAllC ((lowerCs s.data).length + 1) (lowerCs s.data)) _ hB
    exact hC
  refine ⟨hmain.1, hmain.2, ?_⟩
  intro p hp
  have hnn := hmain.2 p hp
  unfold validate_weight
  rw [q0_def, q1_def, if_neg (not_lt.mpr hnn)]
